import Mathlib

/-!
# Verification of the Obsidian-Tracker habit-tracking application

Shallow embedding of the data model (`src/types.ts`), the mutation
handlers of `src/App.tsx`, the statistics computations of the dashboard
component (`src/components/Journal.tsx`, second document: `chartData`,
`heatmapPercentage`) and the AI summary client
(`src/obsidian-track/services/geminiService.ts`).

Conventions of the embedding:
* Dates are the `yyyy-MM-dd` strings the code stores in logs.  Where the
  code derives a date string from a `Date` object ("i days before
  today"), the embedding is parameterised by an abstract formatting
  function (`dayStr`) mapping a day number to its string, and calendar
  days are integers (day numbers); `subDays today i` is `today - i`.
* JavaScript `Math.round` on the nonnegative quantities involved is
  round-half-up, modelled exactly on `ℚ` by `jsRound x = ⌊x + 1/2⌋`.
* JavaScript arrays that may come to hold `undefined` entries through an
  out-of-range `splice` (the reorder handlers) are modelled as lists of
  `Option` values, `none` standing for `undefined`.
* The `partial` field of `HabitLog` is renamed `isPartial` (`partial` is
  a Lean keyword); all other names follow the source.
-/

namespace ObsidianTracker

/-- `Habit` from `src/types.ts`. -/
structure Habit where
  id : String
  name : String
  objective : String
  minObjective : String
  createdAt : String
deriving DecidableEq, Repr

/-- `HabitLog` from `src/types.ts`; `isPartial` is the source's `partial` field. -/
structure HabitLog where
  date : String
  habitId : String
  completed : Bool
  isPartial : Bool
deriving DecidableEq, Repr

/-- `MicroWin` from `src/types.ts`. -/
structure MicroWin where
  id : String
  text : String
deriving DecidableEq, Repr

/-- `MicroWinLog` from `src/types.ts`. -/
structure MicroWinLog where
  date : String
  winId : String
  completed : Bool
deriving DecidableEq, Repr

/-- `DailyTask` from `src/types.ts` (`notes` is optional). -/
structure DailyTask where
  id : String
  text : String
  completed : Bool
  notes : Option String
deriving DecidableEq, Repr

/-- `DayPlan` from `src/types.ts`. -/
structure DayPlan where
  date : String
  tasks : List DailyTask
deriving DecidableEq, Repr

/-- `JournalEntry` from `src/types.ts`. -/
structure JournalEntry where
  date : String
  content : String
deriving DecidableEq, Repr

/-- The six state collections held at the root of `src/App.tsx`. -/
structure AppState where
  habits : List Habit
  logs : List HabitLog
  microWins : List MicroWin
  microWinLogs : List MicroWinLog
  dayPlans : List DayPlan
  journalEntries : List JournalEntry
deriving DecidableEq, Repr

/-- `BackupData` as consumed by `handleImportData` in `src/App.tsx`:
each field may be absent from the imported JSON document (`none`). -/
structure BackupData where
  habits : Option (List Habit)
  logs : Option (List HabitLog)
  microWins : Option (List MicroWin)
  microWinLogs : Option (List MicroWinLog)
  dayPlans : Option (List DayPlan)
  journalEntries : Option (List JournalEntry)
deriving DecidableEq, Repr

/-- The `type` argument of `toggleHabit` in `src/App.tsx`
(`'FULL' | 'PARTIAL' | 'TOGGLE'`). -/
inductive ToggleType where
  | FULL
  | PARTIAL
  | TOGGLE
deriving DecidableEq, Repr

/-- `toggleHabit` from `src/App.tsx` lines 125-144, acting on the `logs`
collection.  `existing?.completed` (optional chaining, `undefined` is
falsy) is `(existing.map HabitLog.completed).getD false`. -/
def toggleHabit (habitId date : String) (type : ToggleType)
    (prevLogs : List HabitLog) : List HabitLog :=
  let existing := prevLogs.find? (fun l => l.habitId == habitId && l.date == date)
  match type with
  | ToggleType.FULL =>
      if (existing.map HabitLog.completed).getD false then
        prevLogs.filter (fun l => !(l.habitId == habitId && l.date == date))
      else
        prevLogs.filter (fun l => !(l.habitId == habitId && l.date == date)) ++
          [⟨date, habitId, true, false⟩]
  | ToggleType.PARTIAL =>
      if (existing.map HabitLog.isPartial).getD false then
        prevLogs.filter (fun l => !(l.habitId == habitId && l.date == date))
      else
        prevLogs.filter (fun l => !(l.habitId == habitId && l.date == date)) ++
          [⟨date, habitId, false, true⟩]
  | ToggleType.TOGGLE => prevLogs

/-- `deleteHabit` from `src/App.tsx` lines 112-115: filters the habit
list and the log list; returns the pair (new habits, new logs). -/
def deleteHabit (id : String) (habits : List Habit) (logs : List HabitLog) :
    List Habit × List HabitLog :=
  (habits.filter (fun h => h.id != id), logs.filter (fun l => l.habitId != id))

/-- ECMAScript `Array.prototype.splice` start-index normalisation:
negative indices count from the end (clamped at 0), nonnegative indices
are clamped at the length. -/
def jsSpliceIndex (len : Nat) (start : Int) : Nat :=
  if start < 0 then ((len : Int) + start).toNat else min start.toNat len

/-- `arr.splice(start, 1)`: the removed element (if any) and the
remaining array. -/
def jsRemoveOne (xs : List α) (start : Int) : Option α × List α :=
  ((xs.drop (jsSpliceIndex xs.length start)).head?,
   xs.take (jsSpliceIndex xs.length start) ++ xs.drop (jsSpliceIndex xs.length start + 1))

/-- `arr.splice(start, 0, v)`: insert `v` at the normalised index. -/
def jsInsertAt (xs : List α) (start : Int) (v : α) : List α :=
  xs.take (jsSpliceIndex xs.length start) ++ v :: xs.drop (jsSpliceIndex xs.length start)

/-- The shared body of `reorderHabits` / `reorderMicroWins` in
`src/App.tsx` (lines 117-123 and 157-163): guard only on `toIndex`, then
splice-remove one element at `fromIndex` and splice-insert the removed
value (possibly `undefined`, i.e. `none`) at `toIndex`.  Elements are
`Option` values because an out-of-range `fromIndex ≥ length` makes
`movedItem` `undefined`. -/
def jsReorder (fromIndex toIndex : Int) (xs : List (Option α)) : List (Option α) :=
  if toIndex < 0 ∨ (xs.length : Int) ≤ toIndex then xs
  else
    jsInsertAt (jsRemoveOne xs fromIndex).2 toIndex
      ((jsRemoveOne xs fromIndex).1.getD none)

/-- `reorderHabits` from `src/App.tsx` lines 117-123. -/
def reorderHabits (fromIndex toIndex : Int) (habits : List (Option Habit)) :
    List (Option Habit) :=
  jsReorder fromIndex toIndex habits

/-- `reorderMicroWins` from `src/App.tsx` lines 157-163. -/
def reorderMicroWins (fromIndex toIndex : Int) (microWins : List (Option MicroWin)) :
    List (Option MicroWin) :=
  jsReorder fromIndex toIndex microWins

/-- `handleImportData` from `src/App.tsx` lines 212-222: when the user
confirms, each of the six collections is overwritten exactly when the
corresponding field is present in the imported document (`if
(data.habits) setHabits(data.habits)` and so on); otherwise the state is
untouched. -/
def handleImportData (confirmed : Bool) (data : BackupData) (s : AppState) : AppState :=
  if confirmed then
    { habits := data.habits.getD s.habits
      logs := data.logs.getD s.logs
      microWins := data.microWins.getD s.microWins
      microWinLogs := data.microWinLogs.getD s.microWinLogs
      dayPlans := data.dayPlans.getD s.dayPlans
      journalEntries := data.journalEntries.getD s.journalEntries }
  else s

/-- JavaScript `Math.round` on the (nonnegative, exact) rationals
appearing in the statistics: round half up. -/
def jsRound (x : ℚ) : ℤ := ⌊x + 1 / 2⌋

/-- One element of the `chartData` array built in the dashboard
component (`src/components/Journal.tsx`, `chartData` memo). -/
structure ChartPoint where
  rawDate : String
  Full : Nat
  Partial : Nat
  LastWeek : Nat
  Momentum : ℤ
deriving DecidableEq, Repr

/-- `chartData` from the dashboard component in
`src/components/Journal.tsx` (lines 234-269 of the concatenated file):
the loop runs `i = 29 … 0`, so entry `k` of the result is day `29 - k`
days before today.  `dayStr i` is the `yyyy-MM-dd` string of the day `i`
days before today (so `subWeeks (subDays today i) 1` is `dayStr (i+7)`);
`habits.length || 1` is the JavaScript falsy-zero guard. -/
def chartData (dayStr : Nat → String) (habits : List Habit) (logs : List HabitLog) :
    List ChartPoint :=
  (List.range 30).map (fun k =>
    let i := 29 - k
    let dStr := dayStr i
    let prevWeekDStr := dayStr (i + 7)
    let dayLogs := logs.filter (fun l => l.date == dStr)
    let fullCount := (dayLogs.filter (fun l => l.completed)).length
    let partCount := (dayLogs.filter (fun l => l.isPartial)).length
    let prevLogs := logs.filter (fun l => l.date == prevWeekDStr)
    let prevWeekCount := (prevLogs.filter (fun l => l.completed || l.isPartial)).length
    let totalHabits := if habits.length = 0 then 1 else habits.length
    let weightedScore : ℚ := (fullCount : ℚ) * 1 + (partCount : ℚ) * 1
    let score := jsRound (weightedScore / (totalHabits : ℚ) * 100)
    ⟨dStr, fullCount, partCount, prevWeekCount, score⟩)

/-- The consistency-percentage computation from the dashboard component
in `src/components/Journal.tsx` (lines 308-327 of the concatenated
file).  Calendar days are integers: `today` is today's day number,
`createdStart` the day number of the selected habit's creation date, and
`dayStr` formats a day number as its `yyyy-MM-dd` string.  The loop adds
one point per day `i ∈ [0, 30)` with `subDays today i ≥ createdStart`
whose found log is completed or else is partial; the percentage is
`Math.min(Math.round((total / 30) * 100), 100)`. -/
def consistencyDayPoints (effectiveHabitId : String) (createdStart today : Int)
    (dayStr : Int → String) (logs : List HabitLog) (i : ℕ) : ℕ :=
  if createdStart ≤ today - (i : Int) then
    match logs.find? (fun l => l.habitId == effectiveHabitId &&
        l.date == dayStr (today - (i : Int))) with
    | some log => if log.completed then 1 else if log.isPartial then 1 else 0
    | none => 0
  else 0

/-- The accumulated `consistencyScoreTotal` of the loop. -/
def consistencyScoreTotal (effectiveHabitId : String) (createdStart today : Int)
    (dayStr : Int → String) (logs : List HabitLog) : ℕ :=
  ((List.range 30).map
    (consistencyDayPoints effectiveHabitId createdStart today dayStr logs)).sum

def heatmapPercentage (effectiveHabitId : String) (createdStart today : Int)
    (dayStr : Int → String) (logs : List HabitLog) : ℤ :=
  min (jsRound
    ((consistencyScoreTotal effectiveHabitId createdStart today dayStr logs : ℚ)
      / 30 * 100)) 100

/-- The digest object built by `analyzeProgress` in
`src/obsidian-track/services/geminiService.ts` (`dataSummary`).
`sevenDaysAgoStr` is the `yyyy-MM-dd` string of `Date.now()` minus seven
days; the filter keeps logs with `l.date >= sevenDaysAgoStr`. -/
structure DataSummary where
  totalHabits : Nat
  recentActivity : List HabitLog
  habitsDef : List (String × String)
deriving DecidableEq, Repr

/-- Outcome of the AI summary client: either an immediate return with a
fixed message and no external request, or one external text-generation
request carrying the digest. -/
inductive AIOutcome where
  | noCall (message : String)
  | externalRequest (digest : DataSummary)
deriving DecidableEq, Repr

/-- Whether the outcome performs an external text-generation call. -/
def AIOutcome.isCall : AIOutcome → Bool
  | noCall _ => false
  | externalRequest _ => true

/-- The fixed configuration-missing message returned by
`analyzeProgress` when the credential is empty. -/
def configMissingMessage : String :=
  "AI Configuration Missing. Please add your Google Gemini API Key in the Habits tab settings."

/-- `analyzeProgress` from `src/obsidian-track/services/geminiService.ts`:
`if (!apiKey) return <fixed message>` — an empty credential string is the
only falsy string — otherwise build `dataSummary` and issue one
`generateContent` request (the request itself is external and opaque;
the embedding records that it is attempted and with which digest). -/
def analyzeProgress (apiKey : String) (sevenDaysAgoStr : String)
    (habits : List Habit) (logs : List HabitLog) : AIOutcome :=
  if apiKey == "" then AIOutcome.noCall configMissingMessage
  else
    AIOutcome.externalRequest
      ⟨habits.length,
       logs.filter (fun l => sevenDaysAgoStr ≤ l.date),
       habits.map (fun h => (h.name, h.objective))⟩

/-! ## Specification-side definitions (from the spec's wording, for
comparison with the code-side definitions above) -/

/-- Two logs are for the same `(habitId, date)` key. -/
def sameKey (a b : HabitLog) : Prop := a.habitId = b.habitId ∧ a.date = b.date

instance : DecidableRel sameKey := fun a b => by unfold sameKey; infer_instance

/-- Invariant: at most one log per `(habitId, date)` key. -/
def distinctKeys (logs : List HabitLog) : Prop :=
  List.Pairwise (fun a b => ¬ sameKey a b) logs

instance : ∀ logs, Decidable (distinctKeys logs) := fun logs =>
  List.instDecidablePairwise logs

/-- Invariant: no log has `completed` and `partial` both true. -/
def noBothFlags (logs : List HabitLog) : Prop :=
  ∀ l ∈ logs, ¬(l.completed = true ∧ l.isPartial = true)

instance : ∀ logs, Decidable (noBothFlags logs) := fun logs =>
  List.decidableBAll _ logs

/-- The logs stored for a given `(habitId, date)` key. -/
def logsFor (habitId date : String) (logs : List HabitLog) : List HabitLog :=
  logs.filter (fun l => l.habitId == habitId && l.date == date)

/-- Momentum formula as the spec states it:
`round(100 × (fullCount + partialCount) / max(1, totalHabitsCount))`. -/
def momentumSpec (fullCount partCount totalHabitsCount : Nat) : ℤ :=
  jsRound (100 * ((fullCount : ℚ) + (partCount : ℚ)) / ((max 1 totalHabitsCount : ℕ) : ℚ))

/-- Spec-side count for the momentum claim: the number of logs on the
given date with `completed = true` (across all habits). -/
def fullCountOn (logs : List HabitLog) (dStr : String) : Nat :=
  (logs.filter (fun l => l.date == dStr && l.completed)).length

/-- Spec-side count for the momentum claim: the number of logs on the
given date with `partial = true` (across all habits). -/
def partCountOn (logs : List HabitLog) (dStr : String) : Nat :=
  (logs.filter (fun l => l.date == dStr && l.isPartial)).length

/-- Spec-side count for the consistency claim: the number of days among
the trailing 30 (only days on/after the habit's creation date) on which
the habit has a log with `completed = true` or `partial = true`. -/
def consistencyDaysSpec (habitId : String) (createdStart today : Int)
    (dayStr : Int → String) (logs : List HabitLog) : Nat :=
  ((List.range 30).filter (fun (i : ℕ) =>
    decide (createdStart ≤ today - (i : Int)) &&
    logs.any (fun l => l.habitId == habitId && l.date == dayStr (today - (i : Int)) &&
      (l.completed || l.isPartial)))).length

/-! ## Concrete sample data used by witnesses and counterexamples -/

/-- A sample habit ("A"). -/
def habitA : Habit := ⟨"a", "A", "5km", "1km", "2024-01-01"⟩

/-- A sample habit ("B"). -/
def habitB : Habit := ⟨"b", "B", "4h", "1h", "2024-01-01"⟩

/-- A sample habit ("C"). -/
def habitC : Habit := ⟨"c", "C", "30p", "5p", "2024-01-01"⟩

/-- Default `ChartPoint` used with `List.getD`. -/
def dfltCP : ChartPoint := ⟨"", 0, 0, 0, 0⟩

/-- A concrete day-number formatter distinguishing today, yesterday and
two days ago (day numbers 0, -1, -2). -/
def dayStrEx : Int → String :=
  fun n => if n = 0 then "d0" else if n = -1 then "d-1" else if n = -2 then "d-2" else "other"

/-- Three completed logs for habit "run" dated today, yesterday and two
days ago (the consistency scenario of the spec). -/
def scenarioLogs : List HabitLog :=
  [⟨"d0", "run", true, false⟩, ⟨"d-1", "run", true, false⟩, ⟨"d-2", "run", true, false⟩]

/-! ## Helper lemmas -/

theorem find?_eq_head?_filter (p : α → Bool) (l : List α) :
    l.find? p = (l.filter p).head? := by
  induction l with
  | nil => rfl
  | cons a t ih =>
      by_cases h : p a = true
      · rw [List.find?_cons_of_pos _ h, List.filter_cons_of_pos h]
        rfl
      · rw [List.find?_cons_of_neg _ h, List.filter_cons_of_neg h, ih]

theorem filter_filter_not (p : α → Bool) (l : List α) :
    (l.filter (fun a => !(p a))).filter p = [] := by
  induction l with
  | nil => rfl
  | cons a t ih =>
      cases h : p a with
      | true =>
          rw [List.filter_cons_of_neg (by simp [h])]
          exact ih
      | false =>
          rw [List.filter_cons_of_pos (by simp [h]), List.filter_cons_of_neg (by simp [h])]
          exact ih

theorem filter_key_filter_not (id d : String) (logs : List HabitLog) :
    List.filter (fun l => l.habitId == id && l.date == d)
      (List.filter (fun l => !(l.habitId == id && l.date == d)) logs) = [] :=
  filter_filter_not (fun l => l.habitId == id && l.date == d) logs

theorem logsFor_filter_not (id d : String) (logs : List HabitLog) :
    logsFor id d (logs.filter (fun l => !(l.habitId == id && l.date == d))) = [] :=
  filter_key_filter_not id d logs

theorem logsFor_append (id d : String) (xs ys : List HabitLog) :
    logsFor id d (xs ++ ys) = logsFor id d xs ++ logsFor id d ys := by
  unfold logsFor
  exact List.filter_append xs ys

/-- Per-key view of a FULL toggle: the key's logs become empty when the
found log was completed, and the single fresh full log otherwise. -/
theorem logsFor_toggleHabit_FULL (id d : String) (logs : List HabitLog) :
    logsFor id d (toggleHabit id d ToggleType.FULL logs) =
      if ((logsFor id d logs).head?.map HabitLog.completed).getD false then []
      else [⟨d, id, true, false⟩] := by
  have e : toggleHabit id d ToggleType.FULL logs =
      (if ((logs.find? (fun l => l.habitId == id && l.date == d)).map
            HabitLog.completed).getD false then
        logs.filter (fun l => !(l.habitId == id && l.date == d))
      else
        logs.filter (fun l => !(l.habitId == id && l.date == d)) ++
          [⟨d, id, true, false⟩]) := rfl
  rw [e, find?_eq_head?_filter]
  unfold logsFor
  split_ifs with h
  · exact filter_key_filter_not id d logs
  · rw [List.filter_append, filter_key_filter_not id d logs]
    simp

/-- Per-key view of a PARTIAL toggle. -/
theorem logsFor_toggleHabit_PARTIAL (id d : String) (logs : List HabitLog) :
    logsFor id d (toggleHabit id d ToggleType.PARTIAL logs) =
      if ((logsFor id d logs).head?.map HabitLog.isPartial).getD false then []
      else [⟨d, id, false, true⟩] := by
  have e : toggleHabit id d ToggleType.PARTIAL logs =
      (if ((logs.find? (fun l => l.habitId == id && l.date == d)).map
            HabitLog.isPartial).getD false then
        logs.filter (fun l => !(l.habitId == id && l.date == d))
      else
        logs.filter (fun l => !(l.habitId == id && l.date == d)) ++
          [⟨d, id, false, true⟩]) := rfl
  rw [e, find?_eq_head?_filter]
  unfold logsFor
  split_ifs with h
  · exact filter_key_filter_not id d logs
  · rw [List.filter_append, filter_key_filter_not id d logs]
    simp

theorem distinctKeys_filter (p : HabitLog → Bool) (logs : List HabitLog)
    (h : distinctKeys logs) : distinctKeys (logs.filter p) :=
  h.sublist (List.filter_sublist logs)

theorem noBothFlags_filter (p : HabitLog → Bool) (logs : List HabitLog)
    (h : noBothFlags logs) : noBothFlags (logs.filter p) :=
  fun l hl => h l (List.mem_of_mem_filter hl)

theorem distinctKeys_clean_append (id d : String) (logs : List HabitLog)
    (c p : Bool) (h : distinctKeys logs) :
    distinctKeys (logs.filter (fun l => !(l.habitId == id && l.date == d)) ++
      [(⟨d, id, c, p⟩ : HabitLog)]) := by
  rw [distinctKeys, List.pairwise_append]
  refine ⟨distinctKeys_filter _ logs h, List.pairwise_singleton _ _, ?_⟩
  intro a ha b hb
  rw [List.mem_singleton] at hb
  subst hb
  rw [List.mem_filter] at ha
  have hkey := ha.2
  simp only [Bool.not_eq_eq_eq_not, Bool.not_true, Bool.and_eq_false_imp] at hkey
  intro hsame
  obtain ⟨h1, h2⟩ := hsame
  simp only at h1 h2
  rw [beq_eq_false_iff_ne] at hkey
  exact absurd h2 (hkey (by simp [h1]))

theorem noBothFlags_clean_append (id d : String) (logs : List HabitLog)
    (c p : Bool) (hcp : ¬(c = true ∧ p = true)) (h : noBothFlags logs) :
    noBothFlags (logs.filter (fun l => !(l.habitId == id && l.date == d)) ++
      [(⟨d, id, c, p⟩ : HabitLog)]) := by
  intro l hl
  rw [List.mem_append] at hl
  rcases hl with hl | hl
  · exact h l (List.mem_of_mem_filter hl)
  · rw [List.mem_singleton] at hl
    subst hl
    exact hcp

/-- C1: `toggleHabit` preserves the two log invariants: at most one log
per `(habitId, date)` key, and no log with `completed` and `partial`
both true.  Proved for every toggle type (FULL, PARTIAL and the inert
TOGGLE), which covers the claim's FULL and PARTIAL modes. -/
theorem toggleHabit_preserves_invariants (id d : String) (t : ToggleType)
    (logs : List HabitLog) (hk : distinctKeys logs) (hf : noBothFlags logs) :
    distinctKeys (toggleHabit id d t logs) ∧ noBothFlags (toggleHabit id d t logs) := by
  cases t with
  | TOGGLE => exact ⟨hk, hf⟩
  | FULL =>
      have e : toggleHabit id d ToggleType.FULL logs =
          (if ((logs.find? (fun l => l.habitId == id && l.date == d)).map
                HabitLog.completed).getD false then
            logs.filter (fun l => !(l.habitId == id && l.date == d))
          else
            logs.filter (fun l => !(l.habitId == id && l.date == d)) ++
              [⟨d, id, true, false⟩]) := rfl
      rw [e]
      split_ifs with h
      · exact ⟨distinctKeys_filter _ logs hk, noBothFlags_filter _ logs hf⟩
      · exact ⟨distinctKeys_clean_append id d logs true false hk,
          noBothFlags_clean_append id d logs true false (by simp) hf⟩
  | PARTIAL =>
      have e : toggleHabit id d ToggleType.PARTIAL logs =
          (if ((logs.find? (fun l => l.habitId == id && l.date == d)).map
                HabitLog.isPartial).getD false then
            logs.filter (fun l => !(l.habitId == id && l.date == d))
          else
            logs.filter (fun l => !(l.habitId == id && l.date == d)) ++
              [⟨d, id, false, true⟩]) := rfl
      rw [e]
      split_ifs with h
      · exact ⟨distinctKeys_filter _ logs hk, noBothFlags_filter _ logs hf⟩
      · exact ⟨distinctKeys_clean_append id d logs false true hk,
          noBothFlags_clean_append id d logs false true (by simp) hf⟩

/-- Witness for C1: the invariants hold after a FULL toggle on a
concrete one-log state satisfying them. -/
theorem toggleHabit_preserves_invariants_witness :
    distinctKeys (toggleHabit "h1" "2024-01-02" ToggleType.FULL
      [⟨"2024-01-02", "h1", false, true⟩]) ∧
    noBothFlags (toggleHabit "h1" "2024-01-02" ToggleType.FULL
      [⟨"2024-01-02", "h1", false, true⟩]) :=
  toggleHabit_preserves_invariants "h1" "2024-01-02" ToggleType.FULL
    [⟨"2024-01-02", "h1", false, true⟩] (by decide) (by decide)

/-- C2 is false as stated: starting from a *partial* log, toggling FULL
twice ends with no log for the key (partial → full → deleted), not the
original partial log. -/
theorem toggle_twice_counterexample :
    logsFor "h1" "2024-01-05"
        (toggleHabit "h1" "2024-01-05" ToggleType.FULL
          (toggleHabit "h1" "2024-01-05" ToggleType.FULL
            [⟨"2024-01-05", "h1", false, true⟩])) ≠
      logsFor "h1" "2024-01-05" [⟨"2024-01-05", "h1", false, true⟩] := by
  decide

/-- C2 (amended): toggling FULL twice restores the per-key log state
when the starting state is none or full; toggling PARTIAL twice restores
it when the starting state is none or partial.  (From the opposite
state the double toggle ends with no log, per the counterexample.) -/
theorem toggleHabit_double_restores (id d : String) (logs : List HabitLog) :
    ((logsFor id d logs = [] ∨ logsFor id d logs = [⟨d, id, true, false⟩]) →
      logsFor id d (toggleHabit id d ToggleType.FULL
        (toggleHabit id d ToggleType.FULL logs)) = logsFor id d logs) ∧
    ((logsFor id d logs = [] ∨ logsFor id d logs = [⟨d, id, false, true⟩]) →
      logsFor id d (toggleHabit id d ToggleType.PARTIAL
        (toggleHabit id d ToggleType.PARTIAL logs)) = logsFor id d logs) := by
  constructor
  · intro h
    rw [logsFor_toggleHabit_FULL, logsFor_toggleHabit_FULL]
    rcases h with h | h <;> rw [h] <;> simp
  · intro h
    rw [logsFor_toggleHabit_PARTIAL, logsFor_toggleHabit_PARTIAL]
    rcases h with h | h <;> rw [h] <;> simp

/-- Witness for the amended C2: double FULL toggle restores a concrete
full log, and double PARTIAL toggle restores a concrete partial log. -/
theorem toggleHabit_double_restores_witness :
    logsFor "h1" "2024-01-06" (toggleHabit "h1" "2024-01-06" ToggleType.FULL
        (toggleHabit "h1" "2024-01-06" ToggleType.FULL
          [⟨"2024-01-06", "h1", true, false⟩])) =
      logsFor "h1" "2024-01-06" [⟨"2024-01-06", "h1", true, false⟩] ∧
    logsFor "h2" "2024-01-07" (toggleHabit "h2" "2024-01-07" ToggleType.PARTIAL
        (toggleHabit "h2" "2024-01-07" ToggleType.PARTIAL
          [⟨"2024-01-07", "h2", false, true⟩])) =
      logsFor "h2" "2024-01-07" [⟨"2024-01-07", "h2", false, true⟩] :=
  ⟨(toggleHabit_double_restores "h1" "2024-01-06"
      [⟨"2024-01-06", "h1", true, false⟩]).1 (Or.inr (by decide)),
   (toggleHabit_double_restores "h2" "2024-01-07"
      [⟨"2024-01-07", "h2", false, true⟩]).2 (Or.inr (by decide))⟩

/-- C3: for every starting log list, toggling FULL then PARTIAL on a key
leaves exactly one log for that key, with `completed = false` and
`partial = true`. -/
theorem toggle_full_then_partial (id d : String) (logs : List HabitLog) :
    logsFor id d (toggleHabit id d ToggleType.PARTIAL
      (toggleHabit id d ToggleType.FULL logs)) = [⟨d, id, false, true⟩] := by
  rw [logsFor_toggleHabit_PARTIAL, logsFor_toggleHabit_FULL]
  split_ifs with h <;> simp_all

/-- C4: deleting a habit removes it from the habit list, keeps every
habit with a different id, removes every log referencing it, and keeps
every other log (as an order-preserving sublist, with multiplicities
unchanged). -/
theorem deleteHabit_cascades (h : Habit) (habits : List Habit)
    (logs : List HabitLog) (hmem : h ∈ habits) :
    h ∉ (deleteHabit h.id habits logs).1 ∧
    (∀ h' ∈ habits, h'.id ≠ h.id → h' ∈ (deleteHabit h.id habits logs).1) ∧
    (∀ l ∈ (deleteHabit h.id habits logs).2, l.habitId ≠ h.id) ∧
    (deleteHabit h.id habits logs).2.Sublist logs ∧
    (∀ l : HabitLog, l.habitId ≠ h.id →
      (deleteHabit h.id habits logs).2.count l = logs.count l) := by
  refine ⟨?_, ?_, ?_, ?_, ?_⟩
  · intro hc
    rw [deleteHabit] at hc
    have := (List.mem_filter.mp hc).2
    simp at this
  · intro h' hh' hid
    rw [deleteHabit]
    exact List.mem_filter.mpr ⟨hh', by simp [hid]⟩
  · intro l hl
    have := (List.mem_filter.mp hl).2
    simpa using this
  · exact List.filter_sublist logs
  · intro l hl
    exact List.count_filter (by simp [hl])

/-- Witness for C4 at a concrete state: deleting habit "a" removes it
and its log, and keeps habit "b" and its log. -/
theorem deleteHabit_cascades_witness :
    habitA ∉ (deleteHabit habitA.id [habitA, habitB]
        [⟨"2024-01-02", "a", true, false⟩, ⟨"2024-01-02", "b", false, true⟩]).1 ∧
    habitB ∈ (deleteHabit habitA.id [habitA, habitB]
        [⟨"2024-01-02", "a", true, false⟩, ⟨"2024-01-02", "b", false, true⟩]).1 ∧
    (∀ l ∈ (deleteHabit habitA.id [habitA, habitB]
        [⟨"2024-01-02", "a", true, false⟩, ⟨"2024-01-02", "b", false, true⟩]).2,
      l.habitId ≠ habitA.id) := by
  have hspec := deleteHabit_cascades habitA [habitA, habitB]
    [⟨"2024-01-02", "a", true, false⟩, ⟨"2024-01-02", "b", false, true⟩]
    (List.mem_cons_self habitA [habitB])
  exact ⟨hspec.1, hspec.2.1 habitB (by decide) (by decide), hspec.2.2.1⟩

/-- C9: with an empty credential string the AI client returns the fixed
configuration-missing message and performs no external call; with a
non-empty credential it attempts exactly an external call. -/
theorem analyzeProgress_credential_gate (apiKey cutoff : String)
    (habits : List Habit) (logs : List HabitLog) :
    (apiKey = "" →
      analyzeProgress apiKey cutoff habits logs = AIOutcome.noCall configMissingMessage ∧
      (analyzeProgress apiKey cutoff habits logs).isCall = false) ∧
    (apiKey ≠ "" → (analyzeProgress apiKey cutoff habits logs).isCall = true) := by
  constructor
  · intro h
    subst h
    exact ⟨rfl, rfl⟩
  · intro h
    have hb : (apiKey == "") = false := beq_eq_false_iff_ne.mpr h
    rw [analyzeProgress, hb]
    rfl

/-- Witness for C9: empty credential yields the fixed message with no
call; a non-empty credential attempts the call. -/
theorem analyzeProgress_credential_gate_witness :
    analyzeProgress "" "2024-01-01" [] [] = AIOutcome.noCall configMissingMessage ∧
    (analyzeProgress "my-key" "2024-01-01" [] []).isCall = true :=
  ⟨((analyzeProgress_credential_gate "" "2024-01-01" [] []).1 rfl).1,
   (analyzeProgress_credential_gate "my-key" "2024-01-01" [] []).2 (by decide)⟩

/-- C8: on a confirmed import, each of the six collections is
overwritten exactly when its field is present in the imported document,
and keeps its pre-import value when the field is absent. -/
theorem handleImportData_frame (data : BackupData) (s : AppState) :
    (∀ v, data.habits = some v → (handleImportData true data s).habits = v) ∧
    (data.habits = none → (handleImportData true data s).habits = s.habits) ∧
    (∀ v, data.logs = some v → (handleImportData true data s).logs = v) ∧
    (data.logs = none → (handleImportData true data s).logs = s.logs) ∧
    (∀ v, data.microWins = some v → (handleImportData true data s).microWins = v) ∧
    (data.microWins = none → (handleImportData true data s).microWins = s.microWins) ∧
    (∀ v, data.microWinLogs = some v → (handleImportData true data s).microWinLogs = v) ∧
    (data.microWinLogs = none →
      (handleImportData true data s).microWinLogs = s.microWinLogs) ∧
    (∀ v, data.dayPlans = some v → (handleImportData true data s).dayPlans = v) ∧
    (data.dayPlans = none → (handleImportData true data s).dayPlans = s.dayPlans) ∧
    (∀ v, data.journalEntries = some v →
      (handleImportData true data s).journalEntries = v) ∧
    (data.journalEntries = none →
      (handleImportData true data s).journalEntries = s.journalEntries) := by
  refine ⟨?_, ?_, ?_, ?_, ?_, ?_, ?_, ?_, ?_, ?_, ?_, ?_⟩ <;>
    first
      | (intro v hv; simp [handleImportData, hv])
      | (intro hv; simp [handleImportData, hv])

/-- A sample pre-import state with every collection non-empty. -/
def sampleState : AppState :=
  { habits := [habitB]
    logs := [⟨"2024-01-02", "b", true, false⟩]
    microWins := [⟨"m1", "made bed"⟩]
    microWinLogs := [⟨"2024-01-02", "m1", true⟩]
    dayPlans := [⟨"2024-01-02", [⟨"t1", "write", false, none⟩]⟩]
    journalEntries := [⟨"2024-01-02", "a win"⟩] }

/-- A backup document containing only a `habits` field. -/
def habitsOnlyBackup : BackupData := ⟨some [habitA], none, none, none, none, none⟩

/-- Witness for C8 (the spec's scenario): importing a document with only
`habits` overwrites the habit list and leaves the other five collections
exactly as they were. -/
theorem handleImportData_frame_witness :
    (handleImportData true habitsOnlyBackup sampleState).habits = [habitA] ∧
    (handleImportData true habitsOnlyBackup sampleState).logs = sampleState.logs ∧
    (handleImportData true habitsOnlyBackup sampleState).microWins =
      sampleState.microWins ∧
    (handleImportData true habitsOnlyBackup sampleState).microWinLogs =
      sampleState.microWinLogs ∧
    (handleImportData true habitsOnlyBackup sampleState).dayPlans =
      sampleState.dayPlans ∧
    (handleImportData true habitsOnlyBackup sampleState).journalEntries =
      sampleState.journalEntries := by
  have h := handleImportData_frame habitsOnlyBackup sampleState
  exact ⟨h.1 [habitA] rfl, h.2.2.2.1 rfl, h.2.2.2.2.2.1 rfl,
    h.2.2.2.2.2.2.2.1 rfl, h.2.2.2.2.2.2.2.2.2.1 rfl,
    h.2.2.2.2.2.2.2.2.2.2.2 rfl⟩

theorem filter_filter_and (p q : α → Bool) (l : List α) :
    (l.filter p).filter q = l.filter (fun a => p a && q a) := by
  rw [List.filter_filter]
  apply List.filter_congr
  intro a _
  exact Bool.and_comm (q a) (p a)

theorem ite_one_max (n : ℕ) : (if n = 0 then 1 else n) = max 1 n := by
  split <;> omega

/-- C5: every entry of the 30-day chart series carries the Momentum
score `round(100 × (fullCount + partialCount) / max(1, totalHabits))`
for its own day, full and partial weighing identically; the series has
one entry per trailing day. -/
theorem chartData_momentum (dayStr : ℕ → String) (habits : List Habit)
    (logs : List HabitLog) :
    (chartData dayStr habits logs).length = 30 ∧
    ∀ cp ∈ chartData dayStr habits logs,
      cp.Momentum = momentumSpec (fullCountOn logs cp.rawDate)
        (partCountOn logs cp.rawDate) habits.length := by
  constructor
  · rw [chartData, List.length_map, List.length_range]
  · intro cp hcp
    rw [chartData, List.mem_map] at hcp
    obtain ⟨k, _, rfl⟩ := hcp
    show jsRound _ = momentumSpec _ _ _
    rw [momentumSpec]
    have hfull : ((logs.filter (fun l => l.date == dayStr (29 - k))).filter
        (fun l => l.completed)).length = fullCountOn logs (dayStr (29 - k)) := by
      rw [filter_filter_and, fullCountOn]
    have hpart : ((logs.filter (fun l => l.date == dayStr (29 - k))).filter
        (fun l => l.isPartial)).length = partCountOn logs (dayStr (29 - k)) := by
      rw [filter_filter_and, partCountOn]
    rw [hfull, hpart, ite_one_max]
    congr 1
    ring

/-- Witness for C5: with one habit and one completed log dated on the
most recent chart day, that day's Momentum is 100. -/
theorem chartData_momentum_witness :
    ((chartData (fun _ => "d0") [habitA]
        [⟨"d0", "a", true, false⟩]).getD 29 dfltCP).Momentum = 100 := by
  have hlen : 29 < (chartData (fun _ => "d0") [habitA]
      [⟨"d0", "a", true, false⟩]).length := by
    rw [(chartData_momentum (fun _ => "d0") [habitA] [⟨"d0", "a", true, false⟩]).1]
    omega
  have hmem : (chartData (fun _ => "d0") [habitA]
      [⟨"d0", "a", true, false⟩]).getD 29 dfltCP ∈
      chartData (fun _ => "d0") [habitA] [⟨"d0", "a", true, false⟩] := by
    rw [List.getD_eq_getElem?_getD, List.getElem?_eq_getElem hlen]
    exact List.getElem_mem _
  rw [(chartData_momentum (fun _ => "d0") [habitA]
    [⟨"d0", "a", true, false⟩]).2 _ hmem]
  have hraw : ((chartData (fun _ => "d0") [habitA]
      [⟨"d0", "a", true, false⟩]).getD 29 dfltCP).rawDate = "d0" := by decide
  rw [hraw]
  have h1 : fullCountOn [⟨"d0", "a", true, false⟩] "d0" = 1 := by decide
  have h2 : partCountOn [⟨"d0", "a", true, false⟩] "d0" = 0 := by decide
  rw [h1, h2]
  norm_num [momentumSpec, jsRound]

theorem sum_map_ite (p : α → Bool) (l : List α) :
    (l.map (fun a => if p a = true then (1 : ℕ) else 0)).sum = (l.filter p).length := by
  induction l with
  | nil => rfl
  | cons a t ih =>
      cases h : p a with
      | true => simp [List.filter_cons, h, ih, Nat.add_comm]
      | false => simp [List.filter_cons, h, ih]

theorem logsFor_length_le_one (id d : String) (logs : List HabitLog)
    (h : distinctKeys logs) : (logsFor id d logs).length ≤ 1 := by
  induction logs with
  | nil => simp [logsFor]
  | cons a t ih =>
      rw [distinctKeys, List.pairwise_cons] at h
      obtain ⟨ha, ht⟩ := h
      cases hm : (a.habitId == id && a.date == d) with
      | true =>
          have htail : logsFor id d t = [] := by
            rw [logsFor, List.filter_eq_nil_iff]
            intro l hl hkey
            apply ha l hl
            rw [Bool.and_eq_true, beq_iff_eq, beq_iff_eq] at hm hkey
            exact ⟨hm.1.trans hkey.1.symm, hm.2.trans hkey.2.symm⟩
          have hc : logsFor id d (a :: t) = a :: logsFor id d t := by
            simp [logsFor, List.filter_cons, hm]
          rw [hc, htail]
          simp
      | false =>
          have hc : logsFor id d (a :: t) = logsFor id d t := by
            simp [logsFor, List.filter_cons, hm]
          rw [hc]
          exact ih ht

/-- Under the at-most-one-log-per-key invariant, a day contributes one
point to `consistencyScoreTotal` exactly when it is eligible and the
habit has a completed-or-partial log on it. -/
theorem consistencyDayPoints_eq (id : String) (createdStart today : Int)
    (dayStr : Int → String) (logs : List HabitLog) (hk : distinctKeys logs)
    (i : ℕ) :
    consistencyDayPoints id createdStart today dayStr logs i =
      if (decide (createdStart ≤ today - (i : Int)) &&
          logs.any (fun l => l.habitId == id && l.date == dayStr (today - (i : Int)) &&
            (l.completed || l.isPartial))) = true then 1 else 0 := by
  rw [consistencyDayPoints]
  by_cases hc : createdStart ≤ today - (i : Int)
  · rw [if_pos hc, find?_eq_head?_filter]
    have hlen := logsFor_length_le_one id (dayStr (today - (i : Int))) logs hk
    rw [logsFor] at hlen
    cases hl : List.filter (fun l =>
        l.habitId == id && l.date == dayStr (today - (i : Int))) logs with
    | nil =>
        have hany : logs.any (fun l => l.habitId == id &&
            l.date == dayStr (today - (i : Int)) && (l.completed || l.isPartial)) = false := by
          rw [Bool.eq_false_iff]
          intro hcontra
          rw [List.any_eq_true] at hcontra
          obtain ⟨l, hlmem, hlp⟩ := hcontra
          rw [Bool.and_eq_true] at hlp
          have hmem : l ∈ List.filter (fun l =>
              l.habitId == id && l.date == dayStr (today - (i : Int))) logs :=
            List.mem_filter.mpr ⟨hlmem, hlp.1⟩
          rw [hl] at hmem
          exact absurd hmem (List.not_mem_nil l)
        rw [hany]
        simp [hc]
    | cons a tail =>
        have htail : tail = [] := by
          rw [hl] at hlen
          simpa using hlen
        subst htail
        have hmemf : a ∈ List.filter (fun l =>
            l.habitId == id && l.date == dayStr (today - (i : Int))) logs := by
          rw [hl]
          exact List.mem_cons_self a []
        have hamem := List.mem_filter.mp hmemf
        have hany : logs.any (fun l => l.habitId == id &&
            l.date == dayStr (today - (i : Int)) && (l.completed || l.isPartial)) =
            (a.completed || a.isPartial) := by
          cases hflag : (a.completed || a.isPartial) with
          | true =>
              rw [List.any_eq_true]
              exact ⟨a, hamem.1, by rw [Bool.and_eq_true]; exact ⟨hamem.2, hflag⟩⟩
          | false =>
              rw [Bool.eq_false_iff]
              intro hcontra
              rw [List.any_eq_true] at hcontra
              obtain ⟨l, hlmem, hlp⟩ := hcontra
              rw [Bool.and_eq_true] at hlp
              have hlin : l ∈ List.filter (fun l =>
                  l.habitId == id && l.date == dayStr (today - (i : Int))) logs :=
                List.mem_filter.mpr ⟨hlmem, hlp.1⟩
              rw [hl, List.mem_singleton] at hlin
              subst hlin
              rw [hflag] at hlp
              exact Bool.false_ne_true hlp.2
        rw [hany]
        show (if a.completed = true then 1 else if a.isPartial = true then 1 else 0) = _
        cases h1 : a.completed <;> cases h2 : a.isPartial <;> simp [hc]
  · rw [if_neg hc]
    simp [hc]

/-- C6: the 30-day consistency percentage is
`round(100 × s / 30)` clamped to `[0, 100]`, where `s` counts the
eligible trailing days carrying a completed-or-partial log and the
denominator is the fixed 30 (assuming the at-most-one-log-per-key
invariant of the data model). -/
theorem heatmapPercentage_eq (id : String) (createdStart today : Int)
    (dayStr : Int → String) (logs : List HabitLog) (hk : distinctKeys logs) :
    heatmapPercentage id createdStart today dayStr logs =
      max 0 (min (jsRound (100 *
        (consistencyDaysSpec id createdStart today dayStr logs : ℚ) / 30)) 100) := by
  have hsum : consistencyScoreTotal id createdStart today dayStr logs =
      consistencyDaysSpec id createdStart today dayStr logs := by
    rw [consistencyScoreTotal, consistencyDaysSpec]
    rw [List.map_congr_left (fun i _ =>
      consistencyDayPoints_eq id createdStart today dayStr logs hk i)]
    exact sum_map_ite _ (List.range 30)
  rw [heatmapPercentage, hsum]
  have harg : ((consistencyDaysSpec id createdStart today dayStr logs : ℚ) / 30 * 100) =
      100 * (consistencyDaysSpec id createdStart today dayStr logs : ℚ) / 30 := by
    ring
  rw [harg]
  have h0 : 0 ≤ jsRound (100 *
      (consistencyDaysSpec id createdStart today dayStr logs : ℚ) / 30) := by
    rw [jsRound, Int.le_floor]
    push_cast
    positivity
  omega

/-- Witness for C6 (the spec's scenario): three completed logs dated
today, yesterday and two days ago give a 30-day consistency percentage
of 10. -/
theorem heatmapPercentage_eq_witness :
    heatmapPercentage "run" (-7) 0 dayStrEx scenarioLogs = 10 := by
  have hk : distinctKeys scenarioLogs := by decide
  rw [heatmapPercentage_eq "run" (-7) 0 dayStrEx scenarioLogs hk]
  have hs : consistencyDaysSpec "run" (-7) 0 dayStrEx scenarioLogs = 3 := by decide
  rw [hs]
  norm_num [jsRound]

theorem jsSpliceIndex_of_le (len : ℕ) (f : Int) (h0 : 0 ≤ f) (h1 : f ≤ (len : Int)) :
    jsSpliceIndex len f = f.toNat := by
  rw [jsSpliceIndex, if_neg (by omega)]
  omega

theorem jsSpliceIndex_of_ge (len : ℕ) (f : Int) (h : (len : Int) ≤ f) :
    jsSpliceIndex len f = len := by
  rw [jsSpliceIndex, if_neg (by omega)]
  omega

theorem insertIdx_eq_take_cons_drop (n : ℕ) (v : α) (l : List α) (h : n ≤ l.length) :
    l.insertIdx n v = l.take n ++ v :: l.drop n := by
  induction n generalizing l with
  | zero => simp
  | succ n ih =>
      cases l with
      | nil => simp at h
      | cons a tl =>
          rw [List.insertIdx_succ_cons, ih tl (Nat.le_of_succ_le_succ h)]
          rfl

/-- In-range reorder: the element at `fromIndex` is removed and
reinserted at `toIndex`. -/
theorem jsReorder_in_range (xs : List (Option α)) (f t : Int)
    (hf0 : 0 ≤ f) (hf1 : f < (xs.length : Int)) (ht0 : 0 ≤ t)
    (ht1 : t < (xs.length : Int)) :
    jsReorder f t xs = List.insertIdx t.toNat (xs.getD f.toNat none)
      (xs.eraseIdx f.toNat) := by
  rw [jsReorder, if_neg (by omega)]
  have hk : jsSpliceIndex xs.length f = f.toNat :=
    jsSpliceIndex_of_le xs.length f hf0 (by omega)
  have hfn : f.toNat < xs.length := by omega
  simp only [jsRemoveOne, jsInsertAt, hk]
  have hE : xs.take f.toNat ++ xs.drop (f.toNat + 1) = xs.eraseIdx f.toNat :=
    (List.eraseIdx_eq_take_drop_succ xs f.toNat).symm
  rw [hE]
  have hlen2 : (xs.eraseIdx f.toNat).length = xs.length - 1 := by
    rw [List.length_eraseIdx]
    simp [hfn]
  rw [hlen2]
  have hk2 : jsSpliceIndex (xs.length - 1) t = t.toNat :=
    jsSpliceIndex_of_le (xs.length - 1) t ht0 (by omega)
  rw [hk2]
  have hv : ((xs.drop f.toNat).head?).getD none = xs.getD f.toNat none := by
    rw [List.head?_drop, List.getD_eq_getElem?_getD]
  rw [hv]
  rw [insertIdx_eq_take_cons_drop t.toNat _ _ (by omega)]

/-- Out-of-range `toIndex`: the guard returns the list unchanged. -/
theorem jsReorder_out_of_range (xs : List (Option α)) (f t : Int)
    (h : t < 0 ∨ (xs.length : Int) ≤ t) : jsReorder f t xs = xs := by
  rw [jsReorder, if_pos h]

/-- `fromIndex ≥ length`: the splice removal removes nothing and an
`undefined` (`none`) entry is inserted at `toIndex`. -/
theorem jsReorder_fromIndex_ge (xs : List (Option α)) (f t : Int)
    (hf : (xs.length : Int) ≤ f) (ht0 : 0 ≤ t) (ht1 : t < (xs.length : Int)) :
    jsReorder f t xs = List.insertIdx t.toNat none xs := by
  rw [jsReorder, if_neg (by omega)]
  have hk : jsSpliceIndex xs.length f = xs.length := jsSpliceIndex_of_ge xs.length f hf
  simp only [jsRemoveOne, jsInsertAt, hk]
  rw [List.drop_eq_nil_of_le (by omega), List.take_length,
    List.drop_eq_nil_of_le (by omega), List.append_nil]
  simp only [List.head?_nil, Option.getD_none]
  have hk2 : jsSpliceIndex xs.length t = t.toNat :=
    jsSpliceIndex_of_le xs.length t ht0 (by omega)
  rw [hk2, insertIdx_eq_take_cons_drop t.toNat _ _ (by omega)]

/-- C7: for `fromIndex` within `[0, length-1]`, `reorderHabits` removes
the element at `fromIndex` and reinserts it at `toIndex` when `toIndex`
is within `[0, length-1]`, and returns the habit list unchanged when
`toIndex` is outside that range. -/
theorem reorderHabits_spec (hs : List (Option Habit)) (f t : Int)
    (hf0 : 0 ≤ f) (hf1 : f < (hs.length : Int)) :
    (0 ≤ t → t < (hs.length : Int) →
      reorderHabits f t hs =
        List.insertIdx t.toNat (hs.getD f.toNat none) (hs.eraseIdx f.toNat)) ∧
    (t < 0 ∨ (hs.length : Int) ≤ t → reorderHabits f t hs = hs) :=
  ⟨fun ht0 ht1 => jsReorder_in_range hs f t hf0 hf1 ht0 ht1,
   fun h => jsReorder_out_of_range hs f t h⟩

/-- Witness for C7 (the spec's scenario): `[A,B,C]` with
`reorderHabits(0, 2)` becomes `[B,C,A]`, and an out-of-range `toIndex`
leaves the list unchanged. -/
theorem reorderHabits_spec_witness :
    reorderHabits 0 2 [some habitA, some habitB, some habitC] =
      [some habitB, some habitC, some habitA] ∧
    reorderHabits 0 5 [some habitA, some habitB, some habitC] =
      [some habitA, some habitB, some habitC] := by
  constructor
  · rw [(reorderHabits_spec [some habitA, some habitB, some habitC] 0 2
      (by decide) (by decide)).1 (by decide) (by decide)]
    decide
  · exact (reorderHabits_spec [some habitA, some habitB, some habitC] 0 5
      (by decide) (by decide)).2 (by decide)

/-- C10 as stated is false: a *negative* `fromIndex` is outside
`[0, length-1]`, yet `splice(-1, 1)` removes the last element (negative
indices count from the end), so on `[A, B]` with `(fromIndex, toIndex) =
(-1, 0)` the list becomes `[B, A]`: an element *was* removed, no
`undefined` entry appears, and the length stays 2 instead of growing. -/
theorem reorder_fromIndex_out_counterexample :
    reorderHabits (-1) 0 [some habitA, some habitB] = [some habitB, some habitA] ∧
    ¬(reorderHabits (-1) 0 [some habitA, some habitB]).length =
      ([some habitA, some habitB] : List (Option Habit)).length + 1 := by
  decide

/-- C10 (amended): only `toIndex` is bounds-checked, and for
`fromIndex ≥ length` (with `toIndex` inside `[0, length-1]`) the reorder
is not a no-op: the splice removal removes no element, an `undefined`
entry is inserted at `toIndex`, and the list grows by one element; this
holds for `reorderHabits` and `reorderMicroWins` alike.  (A *negative*
`fromIndex` is clamped by `splice` and moves an existing element
instead, per the counterexample.) -/
theorem reorder_fromIndex_ge_inserts_undefined (f t : Int) :
    (∀ hs : List (Option Habit), (hs.length : Int) ≤ f → 0 ≤ t →
      t < (hs.length : Int) →
      reorderHabits f t hs = List.insertIdx t.toNat none hs ∧
      (reorderHabits f t hs).length = hs.length + 1) ∧
    (∀ ws : List (Option MicroWin), (ws.length : Int) ≤ f → 0 ≤ t →
      t < (ws.length : Int) →
      reorderMicroWins f t ws = List.insertIdx t.toNat none ws ∧
      (reorderMicroWins f t ws).length = ws.length + 1) := by
  constructor
  · intro hs hf ht0 ht1
    have he : reorderHabits f t hs = List.insertIdx t.toNat none hs :=
      jsReorder_fromIndex_ge hs f t hf ht0 ht1
    refine ⟨he, ?_⟩
    rw [he, List.length_insertIdx _ _ (by omega)]
  · intro ws hf ht0 ht1
    have he : reorderMicroWins f t ws = List.insertIdx t.toNat none ws :=
      jsReorder_fromIndex_ge ws f t hf ht0 ht1
    refine ⟨he, ?_⟩
    rw [he, List.length_insertIdx _ _ (by omega)]

/-- Witness for the amended C10: `fromIndex = 5` on a 2-element habit
list with `toIndex = 1` inserts an `undefined` entry and grows the list
to 3. -/
theorem reorder_fromIndex_ge_inserts_undefined_witness :
    reorderHabits 5 1 [some habitA, some habitB] =
      [some habitA, none, some habitB] ∧
    (reorderHabits 5 1 [some habitA, some habitB]).length = 3 := by
  have h := (reorder_fromIndex_ge_inserts_undefined 5 1).1
    [some habitA, some habitB] (by decide) (by decide) (by decide)
  refine ⟨?_, ?_⟩
  · rw [h.1]
    decide
  · rw [h.2]
    decide

end ObsidianTracker
